import Mathlib

/-!
Verification of the negroni middleware stack (`src/negroni.go`).

The development shallowly embeds the chain-construction and dispatch code of
`negroni.go`:

* `middleware` mirrors the Go struct `middleware { handler Handler; next *middleware }`
  (`next` is a nilable pointer, hence `Option`);
* `middleware.ServeHTTP` mirrors
  `m.handler.ServeHTTP(rw, r, m.next.ServeHTTP)` — note that Go evaluates the
  argument `m.next.ServeHTTP` (a method value on a `*middleware` with a value
  receiver, hence an implicit dereference) before the interface method call
  executes, so a nil `next` pointer panics before the handler runs, and a nil
  `handler` interface panics when the call executes;
* `build`, `voidMiddleware`, `New`, `Negroni.Use`, `Negroni.Handlers` mirror
  the functions of the same names.

External handler code is modelled by a small action language `HandlerSpec`:
a handler either does nothing at all (`noop`, the function used by
`voidMiddleware`), or emits one observable event id, appends one string to the
response body, and then either calls its continuation exactly once or returns
(`act`).  The observable state of a request is a trace of emitted events plus
the response body; a Go panic is modelled by `Result.panic`, carrying the
state at the time of the panic (side effects performed before a panic persist).

Go interface values are nilable, and a non-nil interface value may wrap a nil
concrete function value (`HandlerFunc(nil)`), whose invocation panics; the two
levels are modelled by `GoHandler`.
-/

set_option autoImplicit false

namespace Negr

/-- Observable per-request state: the trace of events emitted by handlers (in
order of emission) and the response body accumulated so far. -/
structure State where
  trace : List Nat
  body : String
  deriving Repr, DecidableEq

/-- Outcome of dispatching a request: normal return, or a Go panic carrying
the observable state at the time of the panic. -/
inductive Result where
  | ok (s : State)
  | panic (s : State)
  deriving Repr, DecidableEq

/-- Model of the code of one handler function: `noop` is the empty function
`func(rw, r, next) {}` (used by `voidMiddleware`); `act id w callsNext` emits
event `id`, appends `w` to the body, and then calls its continuation exactly
once iff `callsNext`. -/
inductive HandlerSpec where
  | noop
  | act (id : Nat) (write : String) (callsNext : Bool)
  deriving Repr, DecidableEq

/-- Whether this handler function calls its continuation. -/
def HandlerSpec.callsNext : HandlerSpec → Bool
  | .noop => false
  | .act _ _ b => b

/-- The events the handler function emits when it runs. -/
def HandlerSpec.events : HandlerSpec → List Nat
  | .noop => []
  | .act i _ _ => [i]

/-- The state after the handler function's own side effects. -/
def HandlerSpec.effect : HandlerSpec → State → State
  | .noop, s => s
  | .act i w _, s => ⟨s.trace ++ [i], s.body ++ w⟩

/-- Running one handler function with continuation `k`, as
`HandlerFunc.ServeHTTP` does: perform its own effects, then call the
continuation iff the function does. -/
def HandlerSpec.run : HandlerSpec → State → (State → Result) → Result
  | .noop, s, _ => .ok s
  | .act i w b, s, k =>
    let s' : State := ⟨s.trace ++ [i], s.body ++ w⟩
    if b then k s' else .ok s'

/-- A Go `Handler` interface value: the nil interface value, or a non-nil
value of the `HandlerFunc` adapter type wrapping a (possibly nil) function.
Calling `ServeHTTP` on the nil interface panics; `HandlerFunc.ServeHTTP` on a
nil function value panics when it calls the function. -/
inductive GoHandler where
  | nilInterface
  | handlerFunc (f : Option HandlerSpec)
  deriving Repr, DecidableEq

/-- The Go test `handler == nil` (nil interface value). -/
def GoHandler.isNil : GoHandler → Bool
  | .nilInterface => true
  | .handlerFunc _ => false

/-- Coercion of a handler function to a `Handler` interface value,
as Go's `HandlerFunc(f)`. -/
def HF (h : HandlerSpec) : GoHandler :=
  .handlerFunc (some h)

/-- Dispatch on the interface value, as the call `handler.ServeHTTP(rw, r, next)`:
panics on the nil interface and on a nil wrapped function, otherwise runs the
function. -/
def GoHandler.serveHTTP : GoHandler → State → (State → Result) → Result
  | .nilInterface, s, _ => .panic s
  | .handlerFunc none, s, _ => .panic s
  | .handlerFunc (some h), s, k => h.run s k

/-- The Go struct `middleware { handler Handler; next *middleware }`; the
`next` pointer is nilable. -/
inductive middleware where
  | mk (handler : GoHandler) (next : Option middleware)
  deriving Repr

/-- `func (m middleware) ServeHTTP(rw, r)`: evaluates the method value
`m.next.ServeHTTP` (panicking if `m.next` is the nil pointer) and then calls
`m.handler.ServeHTTP(rw, r, m.next.ServeHTTP)`. -/
def middleware.ServeHTTP : middleware → State → Result
  | .mk _ none, s => .panic s
  | .mk h (some m), s => h.serveHTTP s fun s' => m.ServeHTTP s'

/-- `voidMiddleware()`: a node holding the empty handler function, whose
`next` points to a zero-valued `middleware{}` (nil handler interface, nil
next pointer). -/
def voidMiddleware : middleware :=
  .mk (.handlerFunc (some .noop)) (some (.mk .nilInterface none))

/-- `build(handlers)`: empty sequence gives `voidMiddleware()`; one handler
gives a node whose next is `voidMiddleware()`; otherwise a node whose next is
the chain built from the tail. -/
def build : List GoHandler → middleware
  | [] => voidMiddleware
  | [h] => .mk h (some voidMiddleware)
  | h :: h2 :: rest => .mk h (some (build (h2 :: rest)))

/-- The Go struct `Negroni { middleware middleware; handlers []Handler }`;
here `handlers` is the sequence of handler values it holds (slice aliasing is
studied separately in the slice model below). -/
structure Negroni where
  mw : middleware
  handlers : List GoHandler
  deriving Repr

/-- `New(handlers...)`. -/
def New (handlers : List GoHandler) : Negroni :=
  { handlers := handlers, mw := build handlers }

/-- `func (n *Negroni) Use(handler Handler)`: panics with
"handler cannot be nil" if `handler == nil` — before any field is assigned,
so the receiver is unchanged — otherwise appends and rebuilds.  The first
component is the panic message, if any; the second is the receiver's state
after the call. -/
def Negroni.Use (n : Negroni) (handler : GoHandler) : Option String × Negroni :=
  if handler.isNil then
    (some "handler cannot be nil", n)
  else
    let hs := n.handlers ++ [handler]
    (none, { handlers := hs, mw := build hs })

/-- `func (n *Negroni) Handlers() []Handler`: returns `n.handlers`. -/
def Negroni.Handlers (n : Negroni) : List GoHandler :=
  n.handlers

/-- Running a sequence of handler functions back to back: the state after all
their own side effects, in order. -/
def runAll (hs : List HandlerSpec) (s : State) : State :=
  hs.foldl (fun s h => h.effect s) s

/-- The chain shape stated by the spec's build algorithm, written from the
spec's words for comparison with `build`: given `[h0, ..., hn-1]` the chain is
`node(h0, node(h1, ... node(hn-1, terminal)))`, and the empty sequence gives
just the terminal node. -/
def buildSpec (hs : List GoHandler) : middleware :=
  hs.foldr (fun h acc => .mk h (some acc)) voidMiddleware

/-- A sequence of `Use` calls against a stack, in order (a panicking call
leaves the stack as it was). -/
def applyUses (n : Negroni) (gs : List GoHandler) : Negroni :=
  gs.foldl (fun n g => (n.Use g).2) n

/-!
Heap model of the chain, for chain-rebuild frame properties.

In Go, each `middleware` value holds a pointer `next *middleware`; `build`
heap-allocates every `next` node (`var next middleware; ...; &next`), and
`voidMiddleware` heap-allocates `&middleware{}`.  To reason about what a
rebuild does to nodes of a previously built chain, the model below makes the
pointers explicit: a heap is a list of allocated cells (a fresh address is the
current length, allocation appends and never overwrites), and a cell holds a
handler interface value and a nilable address.
-/

/-- A heap-allocated `middleware` struct: handler interface value and
(nilable) `next` pointer, an address into the heap. -/
structure MwCell where
  handler : GoHandler
  next : Option Nat
  deriving Repr, DecidableEq

/-- The heap of `middleware` structs: addresses are indices into `cells`. -/
structure Heap where
  cells : List MwCell
  deriving Repr, DecidableEq

/-- Read the cell at address `a`, if allocated. -/
def Heap.read (h : Heap) (a : Nat) : Option MwCell :=
  h.cells[a]?

/-- Allocate a new cell: its address, and the grown heap. -/
def Heap.alloc (h : Heap) (c : MwCell) : Nat × Heap :=
  (h.cells.length, ⟨h.cells ++ [c]⟩)

/-- `h'` holds every cell of `h`, unchanged, at the same address: nothing
already allocated in `h` was mutated or freed. -/
def Heap.le (h h' : Heap) : Prop :=
  ∀ a c, h.read a = some c → h'.read a = some c

theorem Heap.le_refl (h : Heap) : h.le h := fun _ _ hc => hc

theorem Heap.le_trans {h1 h2 h3 : Heap} (h12 : h1.le h2) (h23 : h2.le h3) :
    h1.le h3 :=
  fun a c hc => h23 a c (h12 a c hc)

theorem Heap.read_lt_length {h : Heap} {a : Nat} {c : MwCell}
    (hc : h.read a = some c) : a < h.cells.length :=
  (List.getElem?_eq_some.mp hc).1

theorem Heap.alloc_le (h : Heap) (c : MwCell) : h.le (h.alloc c).2 := by
  intro a c0 hc0
  have ha : a < h.cells.length := Heap.read_lt_length hc0
  show (h.cells ++ [c])[a]? = some c0
  rw [List.getElem?_append_left ha]
  exact hc0

theorem Heap.alloc_read_self (h : Heap) (c : MwCell) :
    (h.alloc c).2.read (h.alloc c).1 = some c :=
  List.getElem?_concat_length h.cells c

/-- `voidMiddleware()` in the heap model: allocates the zero-valued
`middleware{}` and returns a node pointing at it. -/
def voidMiddlewareH (h : Heap) : MwCell × Heap :=
  let ar := h.alloc ⟨.nilInterface, none⟩
  (⟨.handlerFunc (some .noop), some ar.1⟩, ar.2)

/-- `build(handlers)` in the heap model: as `build`, but each node's `next`
is a freshly allocated cell (`&next`, `&middleware{}`). -/
def buildH : List GoHandler → Heap → MwCell × Heap
  | [], h => voidMiddlewareH h
  | [g], h =>
    let r := voidMiddlewareH h
    let ar := r.2.alloc r.1
    (⟨g, some ar.1⟩, ar.2)
  | g :: g2 :: rest, h =>
    let r := buildH (g2 :: rest) h
    let ar := r.2.alloc r.1
    (⟨g, some ar.1⟩, ar.2)

/-- The `Negroni` stack in the heap model. -/
structure NegroniH where
  mw : MwCell
  handlers : List GoHandler
  deriving Repr, DecidableEq

/-- `New(handlers...)` in the heap model. -/
def NewH (handlers : List GoHandler) (h : Heap) : NegroniH × Heap :=
  let r := buildH handlers h
  ({ handlers := handlers, mw := r.1 }, r.2)

/-- `Use(handler)` in the heap model: panic message (if any), the receiver's
state after the call, and the heap after the call. -/
def UseH (n : NegroniH) (h : Heap) (handler : GoHandler) :
    Option String × NegroniH × Heap :=
  if handler.isNil then
    (some "handler cannot be nil", n, h)
  else
    let hs := n.handlers ++ [handler]
    let r := buildH hs h
    (none, { handlers := hs, mw := r.1 }, r.2)

/-- `middleware.ServeHTTP` in the heap model, reading `next` pointers through
the heap; `fuel` bounds the chain length walked (the heap itself does not
rule out cycles), `none` meaning the bound was hit or a dangling pointer was
followed. -/
def serveHTTPH (h : Heap) : Nat → MwCell → State → Option Result
  | 0, _, _ => none
  | fuel + 1, c, s =>
    match c.next with
    | none => some (.panic s)
    | some a =>
      match h.read a with
      | none => none
      | some nextCell =>
        match c.handler with
        | .nilInterface => some (.panic s)
        | .handlerFunc none => some (.panic s)
        | .handlerFunc (some hf) =>
          match hf with
          | .noop => some (.ok s)
          | .act i w b =>
            if b then serveHTTPH h fuel nextCell ⟨s.trace ++ [i], s.body ++ w⟩
            else some (.ok ⟨s.trace ++ [i], s.body ++ w⟩)

/-- The cell's `next` chain is entirely allocated in `h` (as it is for every
cell produced by `buildH`). -/
inductive CellOk (h : Heap) : MwCell → Prop where
  | noNext (g : GoHandler) : CellOk h ⟨g, none⟩
  | withNext (g : GoHandler) (a : Nat) (c' : MwCell) :
      h.read a = some c' → CellOk h c' → CellOk h ⟨g, some a⟩

theorem CellOk.mono {h h' : Heap} {c : MwCell} (hle : h.le h') (hc : CellOk h c) :
    CellOk h' c := by
  induction hc with
  | noNext g => exact .noNext g
  | withNext g a c' hread _ ih => exact .withNext g a c' (hle a c' hread) ih

/-- Growing the heap by allocation does not change how an already-closed
chain executes: `serveHTTPH` only reads cells the old heap already holds. -/
theorem serveHTTPH_frame {h h' : Heap} (hle : h.le h') :
    ∀ (fuel : Nat) (c : MwCell), CellOk h c → ∀ s : State,
      serveHTTPH h' fuel c s = serveHTTPH h fuel c s := by
  intro fuel
  induction fuel with
  | zero => intro c _ s; rfl
  | succ fuel ih =>
    intro c hc s
    cases hc with
    | noNext g => rfl
    | withNext g a c' hread hc' =>
      show serveHTTPH h' (fuel + 1) ⟨g, some a⟩ s = serveHTTPH h (fuel + 1) ⟨g, some a⟩ s
      unfold serveHTTPH
      simp only [hread, hle a c' hread]
      cases g with
      | nilInterface => rfl
      | handlerFunc f =>
        cases f with
        | none => rfl
        | some hf =>
          cases hf with
          | noop => rfl
          | act i w b =>
            cases b with
            | false => rfl
            | true => simp only [if_true]; exact ih c' hc' _

theorem voidMiddlewareH_le (h : Heap) : h.le (voidMiddlewareH h).2 :=
  Heap.alloc_le h _

theorem voidMiddlewareH_ok (h : Heap) :
    CellOk (voidMiddlewareH h).2 (voidMiddlewareH h).1 :=
  .withNext _ _ _ (Heap.alloc_read_self h _) (.noNext _)

theorem buildH_le (hs : List GoHandler) (h : Heap) : h.le (buildH hs h).2 := by
  induction hs generalizing h with
  | nil => exact voidMiddlewareH_le h
  | cons g t ih =>
    cases t with
    | nil =>
      exact Heap.le_trans (voidMiddlewareH_le h) (Heap.alloc_le (voidMiddlewareH h).2 _)
    | cons g2 rest =>
      exact Heap.le_trans (ih h) (Heap.alloc_le (buildH (g2 :: rest) h).2 _)

theorem buildH_ok (hs : List GoHandler) (h : Heap) :
    CellOk (buildH hs h).2 (buildH hs h).1 := by
  induction hs generalizing h with
  | nil => exact voidMiddlewareH_ok h
  | cons g t ih =>
    cases t with
    | nil =>
      exact .withNext _ _ _ (Heap.alloc_read_self (voidMiddlewareH h).2 _)
        ((voidMiddlewareH_ok h).mono (Heap.alloc_le (voidMiddlewareH h).2 _))
    | cons g2 rest =>
      exact .withNext _ _ _ (Heap.alloc_read_self (buildH (g2 :: rest) h).2 _)
        ((ih h).mono (Heap.alloc_le (buildH (g2 :: rest) h).2 _))

/-!
Slice model of the `handlers` field, for the snapshot question about
`Handlers()`.

In Go, `Negroni.handlers` is a `[]Handler` slice and `Handlers()` returns it
directly: the caller receives the same slice header, sharing the same backing
array.  The model below makes this explicit: a slice is a header (array id,
offset, length, capacity) over a heap of backing arrays; `append` writes into
spare capacity in place when available and otherwise copies to a fresh,
larger array, as Go's `append` does.
-/

/-- A Go slice header: backing-array id, offset, length, capacity. -/
structure Slice where
  arr : Nat
  off : Nat
  len : Nat
  cap : Nat
  deriving Repr, DecidableEq

/-- The heap of backing arrays for `[]Handler` values. -/
structure SHeap where
  arrays : List (List GoHandler)
  deriving Repr, DecidableEq

/-- The backing array with id `a` (empty if unallocated). -/
def SHeap.array (h : SHeap) (a : Nat) : List GoHandler :=
  (h.arrays[a]?).getD []

/-- The ordered sequence of elements a slice denotes. -/
def SHeap.view (h : SHeap) (s : Slice) : List GoHandler :=
  ((h.array s.arr).drop s.off).take s.len

/-- Allocate a fresh backing array with the given contents. -/
def SHeap.allocArr (h : SHeap) (content : List GoHandler) : Nat × SHeap :=
  (h.arrays.length, ⟨h.arrays ++ [content]⟩)

/-- Go's `s[i] = v`: writes the backing array in place; the write is visible
through every slice sharing that array. -/
def SHeap.setElem (h : SHeap) (s : Slice) (i : Nat) (v : GoHandler) : SHeap :=
  ⟨h.arrays.set s.arr ((h.array s.arr).set (s.off + i) v)⟩

/-- Go's `append(s, v)`: in place into spare capacity when `len < cap`,
otherwise into a freshly allocated larger array (unused new slots hold the
zero value of the element type, the nil interface). -/
def SHeap.appendElem (h : SHeap) (s : Slice) (v : GoHandler) : Slice × SHeap :=
  if s.len < s.cap then
    (⟨s.arr, s.off, s.len + 1, s.cap⟩, h.setElem s s.len v)
  else
    let newCap := if s.cap = 0 then 1 else 2 * s.cap
    let content := h.view s ++ [v] ++ List.replicate (newCap - (s.len + 1)) .nilInterface
    let ar := h.allocArr content
    (⟨ar.1, 0, s.len + 1, newCap⟩, ar.2)

/-- The `Negroni` stack in the slice model: the chain is a structure of
handler values copied out of the slice at build time. -/
structure NegroniS where
  mw : middleware
  handlers : Slice
  deriving Repr

/-- `New(handlers...)` in the slice model: the variadic argument arrives as a
fresh slice with `len == cap`. -/
def NewS (handlers : List GoHandler) (h : SHeap) : NegroniS × SHeap :=
  let ar := h.allocArr handlers
  ({ handlers := ⟨ar.1, 0, handlers.length, handlers.length⟩,
     mw := build handlers }, ar.2)

/-- `Use(handler)` in the slice model. -/
def UseS (n : NegroniS) (h : SHeap) (handler : GoHandler) :
    Option String × NegroniS × SHeap :=
  if handler.isNil then
    (some "handler cannot be nil", n, h)
  else
    let ap := h.appendElem n.handlers handler
    (none, { handlers := ap.1, mw := build (ap.2.view ap.1) }, ap.2)

/-- `Handlers()` in the slice model: returns the stack's own slice header —
not a copy of the sequence. -/
def HandlersS (n : NegroniS) : Slice :=
  n.handlers

/-- A one-handler stack built on the empty slice heap. -/
def demoS : NegroniS × SHeap :=
  NewS [HF (.act 0 "1" true)] ⟨[]⟩

end Negr

namespace Negr

theorem build_cons (g : GoHandler) (t : List GoHandler) :
    build (g :: t) = .mk g (some (build t)) := by
  cases t <;> rfl

/-- Dispatching a non-empty chain runs the head handler with the chain of the
tail as continuation (in `build`, a single handler gets `voidMiddleware()` as
next, which is exactly `build []`). -/
theorem serve_build_cons (g : GoHandler) (t : List GoHandler) (s : State) :
    (build (g :: t)).ServeHTTP s = g.serveHTTP s fun s' => (build t).ServeHTTP s' := by
  cases t <;> rfl

theorem voidMiddleware_serve (s : State) : voidMiddleware.ServeHTTP s = .ok s := rfl

theorem runAll_nil (s : State) : runAll [] s = s := rfl

theorem runAll_cons (h : HandlerSpec) (t : List HandlerSpec) (s : State) :
    runAll (h :: t) s = runAll t (h.effect s) := rfl

theorem effect_trace (h : HandlerSpec) (s : State) :
    (h.effect s).trace = s.trace ++ h.events := by
  cases h <;> simp [HandlerSpec.effect, HandlerSpec.events]

/-- The trace after running a sequence of handler functions is the initial
trace followed by each function's events, in sequence order. -/
theorem runAll_trace (hs : List HandlerSpec) (s : State) :
    (runAll hs s).trace = s.trace ++ hs.flatMap HandlerSpec.events := by
  induction hs generalizing s with
  | nil => simp [runAll]
  | cons h t ih => simp [runAll_cons, ih, effect_trace]

/-- If every handler function in the sequence calls its continuation, the
chain built from the sequence returns normally with the state of running all
of them in order. -/
theorem serve_build_all (hs : List HandlerSpec)
    (hall : ∀ h ∈ hs, h.callsNext = true) (s : State) :
    (build (hs.map HF)).ServeHTTP s = .ok (runAll hs s) := by
  induction hs generalizing s with
  | nil => rfl
  | cons h t ih =>
    have hh : h.callsNext = true := hall h (by simp)
    have ht : ∀ x ∈ t, x.callsNext = true := fun x hx => hall x (by simp [hx])
    cases h with
    | noop => simp [HandlerSpec.callsNext] at hh
    | act i w b =>
      cases b with
      | false => simp [HandlerSpec.callsNext] at hh
      | true =>
        rw [List.map_cons, serve_build_cons]
        show (build (t.map HF)).ServeHTTP ⟨s.trace ++ [i], s.body ++ w⟩ = _
        rw [ih ht]
        rfl

/-- Every chain built from (non-nil) handler functions returns normally: no
invocation ever panics, in particular not from a continuation call landing on
the terminal node. -/
theorem serve_build_total (hs : List HandlerSpec) (s : State) :
    ∃ s', (build (hs.map HF)).ServeHTTP s = .ok s' := by
  induction hs generalizing s with
  | nil => exact ⟨s, rfl⟩
  | cons h t ih =>
    cases h with
    | noop => exact ⟨s, by rw [List.map_cons, serve_build_cons]; rfl⟩
    | act i w b =>
      cases b with
      | false =>
        exact ⟨⟨s.trace ++ [i], s.body ++ w⟩, by rw [List.map_cons, serve_build_cons]; rfl⟩
      | true =>
        obtain ⟨s', hs'⟩ := ih ⟨s.trace ++ [i], s.body ++ w⟩
        refine ⟨s', ?_⟩
        rw [List.map_cons, serve_build_cons]
        exact hs'

/-- If the handler functions before position `k` all call their continuation
and the one at position `k` does not, dispatching the chain returns normally
with exactly the first `k+1` handlers run, in order. -/
theorem serve_build_upto (hs : List HandlerSpec) (k : Nat) (hk : k < hs.length)
    (hbefore : ∀ i : Fin hs.length, i.val < k → (hs.get i).callsNext = true)
    (hstop : (hs.get ⟨k, hk⟩).callsNext = false) (s : State) :
    (build (hs.map HF)).ServeHTTP s = .ok (runAll (hs.take (k + 1)) s) := by
  induction hs generalizing k s with
  | nil => exact absurd hk (by simp)
  | cons h t ih =>
    cases k with
    | zero =>
      have hh : h.callsNext = false := hstop
      cases h with
      | noop =>
        rw [List.map_cons, serve_build_cons]
        rfl
      | act i w b =>
        cases b with
        | true => simp [HandlerSpec.callsNext] at hh
        | false =>
          rw [List.map_cons, serve_build_cons]
          rfl
    | succ k' =>
      have hh : h.callsNext = true := hbefore ⟨0, by simp⟩ (Nat.succ_pos k')
      cases h with
      | noop => simp [HandlerSpec.callsNext] at hh
      | act i w b =>
        cases b with
        | false => simp [HandlerSpec.callsNext] at hh
        | true =>
          have hk' : k' < t.length := Nat.lt_of_succ_lt_succ (by simpa using hk)
          have hbefore' : ∀ j : Fin t.length, j.val < k' → (t.get j).callsNext = true := by
            intro j hj
            exact hbefore ⟨j.val + 1, by simp [Nat.succ_lt_succ j.isLt]⟩
              (Nat.succ_lt_succ hj)
          have hstop' : (t.get ⟨k', hk'⟩).callsNext = false := hstop
          rw [List.map_cons, serve_build_cons]
          show (build (t.map HF)).ServeHTTP ⟨s.trace ++ [i], s.body ++ w⟩ = _
          rw [ih k' hk' hbefore' hstop']
          rfl

example : (build []).ServeHTTP ⟨[], ""⟩ = .ok ⟨[], ""⟩ := rfl

example :
    (build [HF (.act 0 "1" true), HF (.act 1 "2" true)]).ServeHTTP ⟨[], ""⟩ =
      .ok ⟨[0, 1], "12"⟩ := rfl

example :
    (build [HF (.act 0 "1" true), HF (.act 1 "2" false), HF (.act 2 "3" true)]).ServeHTTP
      ⟨[], ""⟩ = .ok ⟨[0, 1], "12"⟩ := rfl

example :
    (build [HF (.act 0 "1" true), .handlerFunc none]).ServeHTTP ⟨[], ""⟩ =
      .panic ⟨[0], "1"⟩ := rfl

/-- Claim C1: for every ordered sequence of handlers each of which calls its
continuation exactly once, invoking the head of the chain built from it
returns normally, runs each handler exactly once, and the trace of emitted
events is exactly the handlers' events in the sequence's order: chain order
equals configuration order. -/
theorem claim_c1_chain_order (hs : List HandlerSpec)
    (hall : ∀ h ∈ hs, h.callsNext = true) (s : State) :
    (build (hs.map HF)).ServeHTTP s = .ok (runAll hs s) ∧
    (runAll hs s).trace = s.trace ++ hs.flatMap HandlerSpec.events :=
  ⟨serve_build_all hs hall s, runAll_trace hs s⟩

theorem claim_c1_chain_order_witness :
    (∀ h ∈ [HandlerSpec.act 0 "1" true, .act 1 "2" true, .act 2 "3" true],
      h.callsNext = true) ∧
    ((build ([HandlerSpec.act 0 "1" true, .act 1 "2" true, .act 2 "3" true].map HF)).ServeHTTP
        ⟨[], ""⟩ =
      .ok (runAll [HandlerSpec.act 0 "1" true, .act 1 "2" true, .act 2 "3" true] ⟨[], ""⟩) ∧
    (runAll [HandlerSpec.act 0 "1" true, .act 1 "2" true, .act 2 "3" true] ⟨[], ""⟩).trace =
      [] ++ [HandlerSpec.act 0 "1" true, .act 1 "2" true,
        .act 2 "3" true].flatMap HandlerSpec.events) :=
  ⟨by decide, claim_c1_chain_order [HandlerSpec.act 0 "1" true, .act 1 "2" true,
    .act 2 "3" true] (by decide) ⟨[], ""⟩⟩

/-- Claim C2: if the handler at position `k` does not call its continuation
and every handler before it does, invoking the built chain runs exactly the
handlers at positions `0..k`, each exactly once and in order — handlers past
`k` are never invoked, as the trace (the first `k+1` handlers' events and
nothing more) shows. -/
theorem claim_c2_short_circuit (hs : List HandlerSpec) (k : Nat) (hk : k < hs.length)
    (hbefore : ∀ i : Fin hs.length, i.val < k → (hs.get i).callsNext = true)
    (hstop : (hs.get ⟨k, hk⟩).callsNext = false) (s : State) :
    (build (hs.map HF)).ServeHTTP s = .ok (runAll (hs.take (k + 1)) s) ∧
    (runAll (hs.take (k + 1)) s).trace =
      s.trace ++ (hs.take (k + 1)).flatMap HandlerSpec.events :=
  ⟨serve_build_upto hs k hk hbefore hstop s, runAll_trace (hs.take (k + 1)) s⟩

theorem claim_c2_short_circuit_witness :
    (1 < ([HandlerSpec.act 0 "1" true, .act 1 "2" false, .act 2 "3" true] : List _).length) ∧
    ((build ([HandlerSpec.act 0 "1" true, .act 1 "2" false, .act 2 "3" true].map HF)).ServeHTTP
        ⟨[], ""⟩ =
      .ok (runAll ([HandlerSpec.act 0 "1" true, .act 1 "2" false,
        .act 2 "3" true].take (1 + 1)) ⟨[], ""⟩) ∧
    (runAll ([HandlerSpec.act 0 "1" true, .act 1 "2" false,
        .act 2 "3" true].take (1 + 1)) ⟨[], ""⟩).trace =
      [] ++ ([HandlerSpec.act 0 "1" true, .act 1 "2" false,
        .act 2 "3" true].take (1 + 1)).flatMap HandlerSpec.events) :=
  ⟨by decide, claim_c2_short_circuit
    [HandlerSpec.act 0 "1" true, .act 1 "2" false, .act 2 "3" true] 1 (by decide)
    (by decide) (by decide) ⟨[], ""⟩⟩

/-- Running a prefix of continuation-calling handler functions and then the
rest of the chain: the prefix's nodes pass control to the node built from
`rest`, with the prefix's effects applied. -/
theorem serve_build_append (pre : List HandlerSpec) (rest : List GoHandler)
    (hall : ∀ h ∈ pre, h.callsNext = true) (s : State) :
    (build (pre.map HF ++ rest)).ServeHTTP s = (build rest).ServeHTTP (runAll pre s) := by
  induction pre generalizing s with
  | nil => rfl
  | cons h t ih =>
    have hh : h.callsNext = true := hall h (by simp)
    have ht : ∀ x ∈ t, x.callsNext = true := fun x hx => hall x (by simp [hx])
    cases h with
    | noop => simp [HandlerSpec.callsNext] at hh
    | act i w b =>
      cases b with
      | false => simp [HandlerSpec.callsNext] at hh
      | true =>
        rw [List.map_cons, List.cons_append, serve_build_cons]
        show (build (t.map HF ++ rest)).ServeHTTP ⟨s.trace ++ [i], s.body ++ w⟩ = _
        rw [ih ht]
        rfl

/-- The handlers sequence after a run of `Use` calls is the original sequence
followed by exactly the non-nil (successful) arguments, in call order. -/
theorem applyUses_handlers (n : Negroni) (gs : List GoHandler) :
    (applyUses n gs).handlers = n.handlers ++ gs.filter (fun g => !g.isNil) := by
  induction gs generalizing n with
  | nil => simp [applyUses]
  | cons g t ih =>
    have hstep : applyUses n (g :: t) = applyUses ((n.Use g).2) t := rfl
    cases g with
    | nilInterface =>
      rw [hstep, ih]
      simp [Negroni.Use, GoHandler.isNil]
    | handlerFunc f =>
      rw [hstep, ih]
      simp [Negroni.Use, GoHandler.isNil]

/-- Claim C3: `build` produces exactly the right-nested chain
`node(h0, node(h1, ... node(hn-1, terminal)))` described by the spec, and the
empty sequence yields just the terminal node. -/
theorem claim_c3_build_right_nested :
    (∀ hs : List GoHandler, build hs = buildSpec hs) ∧ build [] = voidMiddleware := by
  refine ⟨?_, rfl⟩
  intro hs
  induction hs with
  | nil => rfl
  | cons h t ih => rw [build_cons, ih]; rfl

/-- Claim C4: `Use` with the nil interface value panics with the
configuration error "handler cannot be nil", and the stack — both its
`handlers` sequence and its chain — is exactly as it was: the panic fires
before any field is assigned. -/
theorem claim_c4_use_nil_unchanged (n : Negroni) :
    n.Use .nilInterface = (some "handler cannot be nil", n) :=
  rfl

/-- Claim C6: after `New` and after every successful `Use`, the stack's chain
is the chain fully rebuilt from its current handlers sequence — the two are
never out of sync. -/
theorem claim_c6_chain_sync (hs : List GoHandler) (n : Negroni) (g : GoHandler)
    (hg : g.isNil = false) :
    (New hs).mw = build (New hs).handlers ∧
    (n.Use g).2.mw = build ((n.Use g).2.handlers) := by
  constructor
  · rfl
  · simp [Negroni.Use, hg]

theorem claim_c6_chain_sync_witness :
    (HF .noop).isNil = false ∧
    ((New [HF (.act 0 "1" true)]).mw = build (New [HF (.act 0 "1" true)]).handlers ∧
    ((New []).Use (HF .noop)).2.mw = build (((New []).Use (HF .noop)).2.handlers)) :=
  ⟨rfl, claim_c6_chain_sync [HF (.act 0 "1" true)] (New []) (HF .noop) rfl⟩

/-- Claim C10: `Use` panics exactly on the nil interface value; every non-nil
interface value — including one wrapping a nil concrete function, whose own
invocation panics — is accepted and appended, and the chain does invoke it at
its position: with continuation-calling handlers before it, dispatch performs
exactly their effects and then panics inside the nil function's invocation. -/
theorem claim_c10_use_rejects_only_nil_interface :
    (∀ (n : Negroni) (g : GoHandler), (n.Use g).1.isSome = g.isNil) ∧
    (∀ (n : Negroni) (f : Option HandlerSpec),
      (n.Use (.handlerFunc f)).2.handlers = n.handlers ++ [.handlerFunc f]) ∧
    (∀ pre : List HandlerSpec, (∀ h ∈ pre, h.callsNext = true) → ∀ s : State,
      (build (pre.map HF ++ [.handlerFunc none])).ServeHTTP s = .panic (runAll pre s)) := by
  refine ⟨?_, ?_, ?_⟩
  · intro n g
    cases g <;> rfl
  · intro n f
    rfl
  · intro pre hall s
    rw [serve_build_append pre [.handlerFunc none] hall s]
    rfl

theorem claim_c10_use_rejects_only_nil_interface_witness :
    ((New []).Use GoHandler.nilInterface).1.isSome = GoHandler.nilInterface.isNil ∧
    ((New []).Use (.handlerFunc none)).2.handlers = [] ++ [.handlerFunc none] ∧
    (build ([HandlerSpec.act 0 "1" true].map HF ++ [.handlerFunc none])).ServeHTTP ⟨[], ""⟩ =
      .panic (runAll [HandlerSpec.act 0 "1" true] ⟨[], ""⟩) :=
  ⟨claim_c10_use_rejects_only_nil_interface.1 (New []) GoHandler.nilInterface,
   claim_c10_use_rejects_only_nil_interface.2.1 (New []) none,
   claim_c10_use_rejects_only_nil_interface.2.2 [HandlerSpec.act 0 "1" true]
     (by decide) ⟨[], ""⟩⟩

theorem UseH_heap_le (n : NegroniH) (h : Heap) (g : GoHandler) :
    h.le (UseH n h g).2.2 := by
  cases hg : g.isNil with
  | true => simp only [UseH, hg, if_true]; exact Heap.le_refl h
  | false => simp only [UseH, hg]; exact buildH_le (n.handlers ++ [g]) h

/-- Claim C5: rebuilding on `Use` creates all-new nodes and mutates no node
of the old chain: every cell of the old heap is present and unchanged
afterwards, and a chain captured before the call (any cell whose `next` chain
is allocated in the old heap, e.g. the stack's head before the rebuild)
executes after the call exactly as it did before. -/
theorem claim_c5_old_chain_unaffected (n : NegroniH) (h : Heap) (g : GoHandler)
    (c : MwCell) (hc : CellOk h c) (fuel : Nat) (s : State) :
    h.le (UseH n h g).2.2 ∧
    serveHTTPH (UseH n h g).2.2 fuel c s = serveHTTPH h fuel c s :=
  have hle := UseH_heap_le n h g
  ⟨hle, serveHTTPH_frame hle fuel c hc s⟩

/-- The spec's concrete scenario: a stack with one handler that writes "1"
and continues, built on the empty heap. -/
def demoNew : NegroniH × Heap :=
  NewH [HF (.act 0 "1" true)] ⟨[]⟩

example :
    serveHTTPH demoNew.2 5 demoNew.1.mw ⟨[], ""⟩ = some (.ok ⟨[0], "1"⟩) := rfl

example :
    serveHTTPH (UseH demoNew.1 demoNew.2 (HF (.act 1 "2" true))).2.2 5
      (UseH demoNew.1 demoNew.2 (HF (.act 1 "2" true))).2.1.mw ⟨[], ""⟩ =
      some (.ok ⟨[0, 1], "12"⟩) := rfl

theorem claim_c5_old_chain_unaffected_witness :
    CellOk demoNew.2 demoNew.1.mw ∧
    (demoNew.2.le (UseH demoNew.1 demoNew.2 (HF (.act 1 "2" true))).2.2 ∧
      serveHTTPH (UseH demoNew.1 demoNew.2 (HF (.act 1 "2" true))).2.2 5
          demoNew.1.mw ⟨[], ""⟩ =
        serveHTTPH demoNew.2 5 demoNew.1.mw ⟨[], ""⟩) :=
  have hc : CellOk demoNew.2 demoNew.1.mw :=
    .withNext _ 1 ⟨.handlerFunc (some .noop), some 0⟩ rfl
      (.withNext _ 0 ⟨.nilInterface, none⟩ rfl (.noNext _))
  ⟨hc, claim_c5_old_chain_unaffected demoNew.1 demoNew.2 (HF (.act 1 "2" true))
    demoNew.1.mw hc 5 ⟨[], ""⟩⟩

/-- Writing element `i` of a slice rewrites position `i` of every view of a
slice sharing the same header — in particular the element write is visible
through the original owner of the slice. -/
theorem view_setElem (h : SHeap) (s : Slice) (i : Nat) (v : GoHandler) :
    (h.setElem s i v).view s = (h.view s).set i v := by
  by_cases harr : s.arr < h.arrays.length
  · have hset : ((h.arrays.set s.arr ((h.array s.arr).set (s.off + i) v))[s.arr]?) =
        some ((h.array s.arr).set (s.off + i) v) :=
      List.getElem?_set_self harr
    show ((SHeap.array ⟨h.arrays.set s.arr ((h.array s.arr).set (s.off + i) v)⟩
        s.arr).drop s.off).take s.len = _
    rw [SHeap.array, hset]
    simp only [Option.getD_some, List.drop_set, SHeap.view]
    have : ¬ s.off + i < s.off := by omega
    rw [if_neg this, Nat.add_sub_cancel_left, List.set_take]
  · have hlen : h.arrays.length ≤ s.arr := Nat.le_of_not_lt harr
    have hnone : h.arrays[s.arr]? = none := List.getElem?_eq_none_iff.mpr hlen
    have harrv : h.array s.arr = [] := by rw [SHeap.array, hnone]; rfl
    have hsame : (h.setElem s i v) = h := by
      show SHeap.mk (h.arrays.set s.arr _) = h
      rw [List.set_eq_of_length_le hlen]
    rw [hsame]
    have hview : h.view s = [] := by
      rw [SHeap.view, harrv]
      simp
    rw [hview]
    simp

/-- Claim C7 fails on the code: `Handlers()` returns the stack's own slice,
so assigning to an element of the returned slice changes the stack's own
handlers sequence.  Concretely, on a stack created with one handler, writing
a different handler at position 0 of the returned slice changes what the
stack's `handlers` slice denotes. -/
theorem claim_c7_counterexample :
    (demoS.2.setElem (HandlersS demoS.1) 0 (HF (.act 1 "2" true))).view demoS.1.handlers ≠
      demoS.2.view demoS.1.handlers := by
  decide

/-- Claim C7 (amended): `Handlers()` returns the current ordered sequence,
whose length and order exactly match the create-time handlers followed by the
successful `Use` calls in order; but it is the stack's own slice rather than
an isolated snapshot — assigning to an element of the returned slice changes
the stack's own handlers sequence in place — while the stack's chain, which
holds handler values copied at build time, is unaffected by such an
assignment (on the one-handler stack: after overwriting position 0 of the
returned slice, the stack's chain still runs the original handler, though a
chain rebuilt from the mutated sequence would run the new one). -/
theorem claim_c7_handlers_amended :
    (∀ init gs : List GoHandler,
      (applyUses (New init) gs).Handlers = init ++ gs.filter (fun g => !g.isNil)) ∧
    (∀ (h : SHeap) (n : NegroniS) (i : Nat) (v : GoHandler),
      (h.setElem (HandlersS n) i v).view n.handlers = (h.view n.handlers).set i v) ∧
    (demoS.1.mw.ServeHTTP ⟨[], ""⟩ = .ok ⟨[0], "1"⟩ ∧
      (build ((demoS.2.setElem (HandlersS demoS.1) 0
          (HF (.act 1 "2" true))).view demoS.1.handlers)).ServeHTTP ⟨[], ""⟩ =
        .ok ⟨[1], "2"⟩) :=
  ⟨fun init gs => applyUses_handlers (New init) gs,
   fun h n i v => view_setElem h n.handlers i v,
   rfl, rfl⟩

/-- Claim C8: the chain built from the empty handler sequence, when invoked,
returns normally with the state untouched: no observable side effect, no
error, no panic. -/
theorem claim_c8_empty_chain_noop (s : State) :
    (build []).ServeHTTP s = .ok s :=
  rfl

/-- Claim C9: the terminal node (`voidMiddleware`) is a safe no-op sink:
invoking it — which is what a continuation call reaching the terminal node
does — returns normally with the state unchanged, and consequently no
invocation of a chain built from handler functions ever panics: continuation
calls reaching the terminal node are absorbed there (the terminal handler
never passes control further). -/
theorem claim_c9_terminal_noop_sink :
    (∀ s : State, voidMiddleware.ServeHTTP s = .ok s) ∧
    (∀ (hs : List HandlerSpec) (s : State),
      ∃ s', (build (hs.map HF)).ServeHTTP s = .ok s') :=
  ⟨voidMiddleware_serve, serve_build_total⟩

end Negr
